import Mathlib

/-!
# Bloom taste-finder — verification of the signal collection / fusion core

Shallow embedding of the signal collector (`data-collector-enhanced.ts`,
class `EnhancedDataCollector`), the signal merger (`mergeSignals` and its
helpers, same file), the dimension classifier (documented in
`docs/CONVERSATION-ANALYSIS.md` and the design spec; the implementing file
`personality-analyzer.ts` is not part of the sources), and the catalog
merge step of `ClawHubClient.searchMultipleCategories`.

Modelling conventions:
* JavaScript numbers are modelled as exact rationals (`ℚ`); every constant
  appearing in the code (`0.1`, `0.02`, `0.3`, `1.2`, …) is exact here.
* `Map<string, number>` (insertion-ordered) is an association list
  `List (String × ℚ)`; `set` updates in place or appends, `get` is `find?`.
* `Set<string>` (insertion-ordered) is a duplicate-free `List String`
  grown by appending unseen elements.
* JavaScript's stable `Array.prototype.sort` with comparator
  `(a, b) => key b - key a` is modelled by a stable insertion sort
  descending on `key`; the result is the unique stable descending order.
* `RegExp.test` calls are abstracted by an oracle
  `rtest : String → String → Bool` taking the regex source text and the
  subject string: the regex engine is an external library from the point
  of view of this core, and every property proved below holds for every
  oracle (hence for the real engine).
* `async`/`Promise` code is modelled by explicit environment records that
  carry each external fetch's outcome; `try`/`catch` is modelled by the
  `Option`/branching structure of those records.
-/

namespace Bloom

/-- JavaScript `Math.round`: round half toward `+∞`. -/
def jsRound (q : ℚ) : ℤ := Int.floor (q + 1/2)

/-- `clamp(value, min, max) = Math.max(min, Math.min(max, value))`
(`data-collector-enhanced.ts`, bottom of the merger section). -/
def clamp (value lo hi : ℚ) : ℚ := max lo (min hi value)

/-! ## Data model (`data-collector-enhanced.ts` interfaces) -/

/-- One tweet of `TwitterData.tweets`. -/
structure Tweet where
  text : String
  likes : Option ℕ := none
  retweets : Option ℕ := none
  timestamp : Option ℕ := none
deriving Repr, DecidableEq

/-- `TwitterData.interactions`. -/
structure Interactions where
  likes : List String
  retweets : List String
  replies : List String
deriving Repr, DecidableEq

/-- `interface TwitterData`. -/
structure TwitterData where
  bio : String
  following : List String
  tweets : List Tweet
  interactions : Interactions
deriving Repr, DecidableEq

/-- `interface ConversationMemory`. -/
structure ConversationMemory where
  topics : List String
  interests : List String
  preferences : List String
  history : List String
  messageCount : ℕ
deriving Repr, DecidableEq

/-- A `dataQuality` entry: `'real' | 'none'`. -/
inductive Quality where
  | real
  | none
deriving Repr, DecidableEq

/-- `UserData.permissions`. -/
structure Permissions where
  twitter : Bool
  conversation : Bool
deriving Repr, DecidableEq

/-- `UserData.dataQuality`. -/
structure DataQuality where
  twitter : Quality
  conversation : Quality
deriving Repr, DecidableEq

/-- `interface WalletData` (token/NFT/transaction lists are irrelevant to
the verified operations and kept as raw counts would be; we keep the
fields the collector actually writes). -/
structure WalletData where
  address : String
  tokens : List String := []
  nfts : List String := []
  transactions : List String := []
  contracts : List String := []
  defiProtocols : List String := []
deriving Repr, DecidableEq

/-- `interface UserData` (the `farcaster` optional source is never written
by `collect` and is omitted). -/
structure UserData where
  sources : List String
  permissions : Permissions
  dataQuality : DataQuality
  twitter : Option TwitterData := Option.none
  conversationMemory : Option ConversationMemory := Option.none
  wallet : Option WalletData := Option.none
deriving Repr, DecidableEq

/-! ## Signal collector (`class EnhancedDataCollector`) -/

/-- Result shape of `sessionReader.readSessionHistory(userId)`. -/
structure SessionAnalysis where
  topics : List String
  interests : List String
  preferences : List String
  history : List String
  messageCount : ℕ
deriving Repr, DecidableEq

/-- Outcomes of the external fetches `collect` performs, one record per
call.  `sessionHistory = none` models `readSessionHistory` throwing. -/
structure CollectEnv where
  sessionHistory : Option SessionAnalysis
  twitterData : TwitterData
  walletAddress : Option String
deriving Repr, DecidableEq

/-- `collect`'s options object: `{ skipTwitter?, includeWallet? }`. -/
structure CollectOptions where
  skipTwitter : Bool := false
  includeWallet : Bool := false
deriving Repr, DecidableEq

/-- `EnhancedDataCollector.collectConversationMemory`.  The whole body —
the `readSessionHistory` call AND the `messageCount < 3` throw — sits
inside one `try` whose `catch` returns an all-empty memory with
`messageCount: 0`; the function therefore never propagates an error. -/
def collectConversationMemory (session : Option SessionAnalysis) :
    ConversationMemory :=
  match session with
  | Option.none =>
      -- `readSessionHistory` threw; caught at the bottom of the function
      ⟨[], [], [], [], 0⟩
  | Option.some a =>
      if a.messageCount < 3 then
        -- the `Insufficient conversation data` Error is thrown here, but
        -- the function's own `catch` swallows it and returns empty data
        ⟨[], [], [], [], 0⟩
      else
        ⟨a.topics, a.interests, a.preferences, a.history, a.messageCount⟩

/-- `EnhancedDataCollector.collectWalletData`: returns the stored address
or an all-empty record; internal `try`/`catch` makes it total. -/
def collectWalletData (walletAddress : Option String) : WalletData :=
  { address := walletAddress.getD "" }

/-- `EnhancedDataCollector.collect`.  Step order follows the source:
conversation (always attempted), Twitter (unless `skipTwitter`; the
permission stub returns `true`), wallet (only when `includeWallet`).
`collectConversationMemory` and `collectTwitterData` are total (each
catches internally), so the `catch` branches of `collect` itself never
fire and every conversation attempt is recorded as a success. -/
def collect (env : CollectEnv) (options : CollectOptions) : UserData :=
  let userData : UserData :=
    { sources := []
      permissions := { twitter := false, conversation := false }
      dataQuality := { twitter := Quality.none, conversation := Quality.none } }
  -- 1. conversation memory: collectConversationMemory never throws
  let userData : UserData :=
    { userData with
        conversationMemory := Option.some (collectConversationMemory env.sessionHistory)
        sources := userData.sources ++ ["Conversation"]
        permissions := { userData.permissions with conversation := true }
        dataQuality := { userData.dataQuality with conversation := Quality.real } }
  -- 2. Twitter (checkTwitterPermission is stubbed to `true`)
  let userData : UserData :=
    if options.skipTwitter then userData
    else
      let ud := { userData with
        permissions := { userData.permissions with twitter := true }
        twitter := Option.some env.twitterData }
      if env.twitterData.bio ≠ "" ∨ env.twitterData.tweets.length > 0 then
        { ud with
            sources := ud.sources ++ ["Twitter"]
            dataQuality := { ud.dataQuality with twitter := Quality.real } }
      else
        { ud with dataQuality := { ud.dataQuality with twitter := Quality.none } }
  -- 3. wallet (opt-in; collectWalletData never throws)
  if options.includeWallet then
    { userData with
        wallet := Option.some (collectWalletData env.walletAddress)
        sources := userData.sources ++ ["Wallet"] }
  else userData

/-- `EnhancedDataCollector.hasSufficientData`. -/
def hasSufficientData (userData : UserData) : Bool :=
  match userData.conversationMemory with
  | Option.none => false
  | Option.some cm => if cm.messageCount < 3 then false else true

/-- `EnhancedDataCollector.getDataQualityScore`. -/
def getDataQualityScore (userData : UserData) : ℕ :=
  let score := 0
  let score :=
    match userData.conversationMemory with
    | Option.none => score
    | Option.some cm =>
        let s := score + 70
        let s := if cm.topics.length ≥ 3 then s + 5 else s
        let s := if cm.interests.length ≥ 3 then s + 5 else s
        if cm.history.length ≥ 5 then s + 5 else s
  let score :=
    match userData.twitter with
    | Option.none => score
    | Option.some tw =>
        if userData.dataQuality.twitter = Quality.real then
          let s := score + 10
          let s := if tw.tweets.length ≥ 10 then s + 3 else s
          if tw.following.length ≥ 20 then s + 2 else s
        else score
  min score 100

/-! ## Signal merger (`mergeSignals` and helpers, same file) -/

/-- `UserMdSignals` (interface of `parsers/user-md-parser`, used by the
merger; every field is optional). -/
structure UserMdSignals where
  role : Option String := Option.none
  currentFocus : Option (List String) := Option.none
  techStack : Option (List String) := Option.none
  interests : Option (List String) := Option.none
  workingStyle : Option String := Option.none
deriving Repr, DecidableEq

/-- `interface FeedbackData`. `categoryWeights` is a `Record`, modelled as
an insertion-ordered association list (its keys are unique in JS). -/
structure FeedbackData where
  categoryWeights : Option (List (String × ℚ)) := Option.none
  excludeSkillIds : Option (List String) := Option.none
  eventCount : ℕ
deriving Repr, DecidableEq

/-- Conversation dimension triple (`{conviction, intuition, contribution}`
with rational components, the merger's second argument and the raw value
of `calculateDimensionNudges`). -/
structure DimTriple where
  conviction : ℚ
  intuition : ℚ
  contribution : ℚ
deriving Repr, DecidableEq

/-- `MergedSignals.dimensionNudges` — integers, being results of
`Math.round`. -/
structure DimensionNudges where
  conviction : ℤ
  intuition : ℤ
  contribution : ℤ
deriving Repr, DecidableEq

/-- `interface MergedSignals`. -/
structure MergedSignals where
  mainCategories : List String
  subCategories : List String
  dimensionNudges : DimensionNudges
  excludedSkillIds : Option (List String)
  categoryWeights : Option (List (String × ℚ))
deriving Repr, DecidableEq

/-- The `categoryScores` scoreboard: a `Map<string, number>` in insertion
order. -/
abbrev Scoreboard := List (String × ℚ)

/-- `Map.get`: the value stored at `cat`, if any. -/
def mapGet (m : Scoreboard) (cat : String) : Option ℚ :=
  match m with
  | [] => Option.none
  | p :: rest => if p.1 = cat then Option.some p.2 else mapGet rest cat

/-- `Map.set`: overwrite in place if the key exists (a `Map`'s keys are
unique, so the first hit is the only one), append otherwise. -/
def mapSet (m : Scoreboard) (cat : String) (v : ℚ) : Scoreboard :=
  match m with
  | [] => [(cat, v)]
  | p :: rest => if p.1 = cat then (cat, v) :: rest else p :: mapSet rest cat v

/-- One `for (let i = …)` loop of the merger: add each category of `cats`
(current index `i`) with position-decayed score
`weight * (1.0 - i * 0.1)` on top of whatever is accumulated. -/
def addWeighted (weight : ℚ) (cats : List String) (i : ℕ) (m : Scoreboard) :
    Scoreboard :=
  match cats with
  | [] => m
  | cat :: rest =>
      let positionBonus : ℚ := 1.0 - (i : ℚ) * 0.1
      addWeighted weight rest (i + 1)
        (mapSet m cat ((mapGet m cat).getD 0 + weight * positionBonus))

/-- The feedback loop of the merger: for each `[cat, weight]` entry of
`feedback.categoryWeights`, multiply an existing positive score, or
introduce the category with `feedbackWeight * (weight - 1.0)` when the
multiplier exceeds `1.2`. -/
def applyFeedback (feedbackWeight : ℚ) (ws : List (String × ℚ))
    (m : Scoreboard) : Scoreboard :=
  match ws with
  | [] => m
  | (cat, weight) :: rest =>
      let existing := (mapGet m cat).getD 0
      let m' :=
        if existing > 0 then mapSet m cat (existing * weight)
        else if weight > 1.2 then mapSet m cat (feedbackWeight * (weight - 1.0))
        else m
      applyFeedback feedbackWeight rest m'

/-- Insert into a list sorted descending on `key`, before the first
element not strictly greater — the placement a stable sort gives the
element arriving from the left. -/
def insertDescBy {α : Type} (key : α → ℚ) (a : α) : List α → List α
  | [] => [a]
  | b :: rest =>
      if key a < key b then b :: insertDescBy key a rest else a :: b :: rest

/-- JavaScript's stable `sort((x, y) => key y - key x)`: the unique stable
descending order. -/
def sortDescBy {α : Type} (key : α → ℚ) : List α → List α
  | [] => []
  | a :: rest => insertDescBy key a (sortDescBy key rest)

/-- `Set<string>` accumulation: keep the first occurrence of each name,
in encounter order. -/
def dedupKeepFirst : List String → List String
  | [] => []
  | c :: rest => c :: (dedupKeepFirst rest).filter (fun d => d ≠ c)

/-- `Set.add` on an insertion-ordered string set. -/
def setAdd (s : List String) (c : String) : List String :=
  if c ∈ s then s else s ++ [c]

/-- `ROLE_CATEGORY_MAP`: regex source text paired with the category. -/
def ROLE_CATEGORY_MAP : List (String × String) :=
  [("\\b(bd|sales|growth|business dev)", "Marketing"),
   ("\\b(develop|engineer|programmer|software|coding)", "Development"),
   ("\\b(research|scientist|academic)", "Education"),
   ("\\b(design|ui|ux|creative)", "Design"),
   ("\\b(market|seo|content|brand)", "Marketing"),
   ("\\b(financ|invest|trad)", "Finance"),
   ("\\b(founder|cto|ceo|co-founder)", "Development"),
   ("\\b(community|advocate|ambassador)", "Marketing")]

/-- `FOCUS_CATEGORY_MAP`. -/
def FOCUS_CATEGORY_MAP : List (String × String) :=
  [("\\b(defi|crypto|web3|blockchain|token|dao|nft|onchain)", "Crypto"),
   ("\\b(ai|llm|agent|machine learning|gpt|neural)", "AI Tools"),
   ("\\b(design|ui|ux|figma)", "Design"),
   ("\\b(educat|learn|teach|course)", "Education"),
   ("\\b(wellness|health|fitness|meditation)", "Wellness"),
   ("\\b(productiv|workflow|automat)", "Productivity")]

/-- `TECH_CATEGORY_MAP`. -/
def TECH_CATEGORY_MAP : List (String × String) :=
  [("\\b(claude-code|claude|anthropic|openai|gpt)", "AI Tools"),
   ("\\b(typescript|javascript|python|rust|go|java)\\b", "Development"),
   ("\\b(solidity|hardhat|foundry|ethers|viem|wagmi)", "Crypto"),
   ("\\b(react|next|vue|svelte|angular)", "Development"),
   ("\\b(figma|sketch|adobe)", "Design")]

/-- One pass of `mapUserMdToCategories` over a category map: add the
category of every row whose regex matches `text`. -/
def addMatches (rtest : String → String → Bool)
    (table : List (String × String)) (text : String)
    (categories : List String) : List String :=
  table.foldl
    (fun acc pc => if rtest pc.1 text then setAdd acc pc.2 else acc)
    categories

/-- `mapUserMdToCategories`.  JS truthiness: a missing or empty `role`
string skips the role pass; missing `currentFocus`/`techStack` arrays skip
theirs (present-but-empty arrays are truthy and run the pass on `""`). -/
def mapUserMdToCategories (rtest : String → String → Bool)
    (userMd : UserMdSignals) : List String :=
  let categories : List String := []
  let categories :=
    match userMd.role with
    | Option.some role =>
        if role = "" then categories
        else addMatches rtest ROLE_CATEGORY_MAP role categories
    | Option.none => categories
  let categories :=
    match userMd.currentFocus with
    | Option.some focus =>
        addMatches rtest FOCUS_CATEGORY_MAP (" ".intercalate focus) categories
    | Option.none => categories
  match userMd.techStack with
  | Option.some tech =>
      addMatches rtest TECH_CATEGORY_MAP (" ".intercalate tech) categories
  | Option.none => categories

/-- `calculateDimensionNudges`: working-style and role nudges, each
component clamped to `[-15, +15]`. -/
def calculateDimensionNudges (rtest : String → String → Bool)
    (userMd : UserMdSignals) : DimTriple :=
  let conviction : ℚ := 0
  let intuition : ℚ := 0
  let contribution : ℚ := 0
  let conviction :=
    if userMd.workingStyle = Option.some "deep-focus" then conviction + 15
    else if userMd.workingStyle = Option.some "explorer" ∨
        userMd.workingStyle = Option.some "multitasker" then conviction - 10
    else conviction
  let intuition :=
    if userMd.workingStyle = Option.some "explorer" ∨
        userMd.workingStyle = Option.some "multitasker" then intuition + 10
    else intuition
  let nudges :=
    match userMd.role with
    | Option.some role =>
        if role = "" then (conviction, intuition, contribution)
        else
          let roleLower := role.toLower
          let intuition :=
            if rtest "research" roleLower then intuition + 10 else intuition
          let contribution :=
            if rtest "community|bd|business dev|ambassador" roleLower then
              contribution + 10
            else contribution
          let conviction :=
            if rtest "founder|cto|ceo|co-founder" roleLower then
              conviction + 10
            else conviction
          (conviction, intuition, contribution)
    | Option.none => (conviction, intuition, contribution)
  { conviction := clamp nudges.1 (-15) 15
    intuition := clamp nudges.2.1 (-15) 15
    contribution := clamp nudges.2.2 (-15) 15 }

/-- The merger's dynamic feedback weight:
`min(0.3, eventCount * 0.02)`. -/
def feedbackWeightOf (eventCount : ℕ) : ℚ :=
  min 0.3 ((eventCount : ℚ) * 0.02)

/-- `feedback?.eventCount ?? 0`. -/
def eventCountOf (feedback : Option FeedbackData) : ℕ :=
  (feedback.map (fun f => f.eventCount)).getD 0

/-- `userMd ? Math.max(0.2, 0.3 - feedbackWeight * 0.33) : 0`. -/
def userMdWeightOf (hasUserMd : Bool) (feedbackWeight : ℚ) : ℚ :=
  if hasUserMd then max 0.2 (0.3 - feedbackWeight * 0.33) else 0

/-- The merger's `categoryScores` map after the first two passes
(position-decayed conversation scores, then position-decayed USER.md
scores) — the accumulated scoreboard the feedback pass multiplies. -/
def baseScoreboard (rtest : String → String → Bool)
    (conversationCategories : List String)
    (userMd : Option UserMdSignals)
    (feedback : Option FeedbackData) : Scoreboard :=
  let feedbackWeight := feedbackWeightOf (eventCountOf feedback)
  let userMdWeight := userMdWeightOf userMd.isSome feedbackWeight
  let userMdCategories :=
    match userMd with
    | Option.some u => mapUserMdToCategories rtest u
    | Option.none => []
  let convWeight : ℚ := 1.0 - userMdWeight - feedbackWeight
  let m := addWeighted convWeight conversationCategories 0 []
  addWeighted userMdWeight userMdCategories 0 m

/-- The merger's `categoryScores` map after all three passes
(conversation, USER.md, feedback) — the "Category merging" section of
`mergeSignals`. -/
def categoryScoreboard (rtest : String → String → Bool)
    (conversationCategories : List String)
    (userMd : Option UserMdSignals)
    (feedback : Option FeedbackData) : Scoreboard :=
  let m := baseScoreboard rtest conversationCategories userMd feedback
  match feedback.bind (fun f => f.categoryWeights) with
  | Option.some ws =>
      applyFeedback (feedbackWeightOf (eventCountOf feedback)) ws m
  | Option.none => m

/-- `mergeSignals`.  `conversationDimensions` is accepted (as in the
source) but never read by the body. -/
def mergeSignals (rtest : String → String → Bool)
    (conversationCategories : List String)
    (conversationDimensions : DimTriple)
    (userMd : Option UserMdSignals)
    (feedback : Option FeedbackData) : MergedSignals :=
  let _ := conversationDimensions
  let feedbackWeight : ℚ := feedbackWeightOf (eventCountOf feedback)
  let userMdWeight : ℚ := userMdWeightOf userMd.isSome feedbackWeight
  let userMdSubCategories := (userMd.bind (fun u => u.interests)).getD []
  let scoreboard := categoryScoreboard rtest conversationCategories userMd feedback
  let sortedCategories := (sortDescBy Prod.snd scoreboard).map Prod.fst
  let mainCategories := sortedCategories.take 3
  let subCategories :=
    (dedupKeepFirst (sortedCategories.drop 3 ++ userMdSubCategories)).take 10
  let base :=
    match userMd with
    | Option.some u => calculateDimensionNudges rtest u
    | Option.none => ⟨0, 0, 0⟩
  let factor := userMdWeight / 0.3
  { mainCategories :=
      if mainCategories.length > 0 then mainCategories
      else conversationCategories
    subCategories := subCategories
    dimensionNudges :=
      { conviction := jsRound (base.conviction * factor)
        intuition := jsRound (base.intuition * factor)
        contribution := jsRound (base.contribution * factor) }
    excludedSkillIds := feedback.bind (fun f => f.excludeSkillIds)
    categoryWeights := feedback.bind (fun f => f.categoryWeights) }

/-! ## Dimension classifier -/

/-- The five identity types. -/
inductive IdentityType where
  | visionary
  | explorer
  | optimizer
  | innovator
  | cultivator
deriving Repr, DecidableEq

/-- Modelled from the spec: the implementing file
`personality-analyzer.ts` is not among the sources; only
`docs/CONVERSATION-ANALYSIS.md` and the design spec (§4.3) describe
`classify`.  Override: `contribution > 65` → Cultivator; otherwise
quadrant on `conviction ≥ 50` / `intuition ≥ 50`, ties at exactly 50
counting as high. -/
def classify (conviction intuition contribution : ℚ) : IdentityType :=
  if contribution > 65 then IdentityType.cultivator
  else if conviction ≥ 50 then
    if intuition ≥ 50 then IdentityType.visionary else IdentityType.optimizer
  else
    if intuition ≥ 50 then IdentityType.explorer else IdentityType.innovator

/-! ## ClawHub catalog merge (`ClawHubClient.searchMultipleCategories`) -/

/-- `interface ClawHubSkill` (the nested `stats`/`moderation` metadata is
never read by the merge step and is omitted). -/
structure ClawHubSkill where
  slug : String
  version : String
  name : String
  description : String
  similarityScore : ℚ
  url : String
  categories : Option (List String) := Option.none
  creator : Option String := Option.none
  creatorUserId : Option String := Option.none
deriving Repr, DecidableEq

/-- The dedup loop of `searchMultipleCategories`: walk the flattened
per-category result arrays, keep a skill only when its slug is not in
`seenSlugs`. -/
def dedupBySlug : List ClawHubSkill → List String → List ClawHubSkill
  | [], _ => []
  | s :: rest, seenSlugs =>
      if s.slug ∈ seenSlugs then dedupBySlug rest seenSlugs
      else s :: dedupBySlug rest (s.slug :: seenSlugs)

/-- The pure merge performed by `searchMultipleCategories` once the
per-category searches have settled: flatten, deduplicate by slug keeping
the first hit, sort by `similarityScore` descending (stable). -/
def mergeSearchResults (resultsArrays : List (List ClawHubSkill)) :
    List ClawHubSkill :=
  sortDescBy (fun s => s.similarityScore)
    (dedupBySlug resultsArrays.flatten [])

/-- The data-quality score as the spec words it: 70 base points plus
richness bonuses when conversation data is present, 10 base points plus
activity/network bonuses when the Twitter source is available (quality
`real`) — written independently of `getDataQualityScore` for the
refinement proof. -/
def specDataQualityScore (u : UserData) : ℕ :=
  let conv : ℕ :=
    match u.conversationMemory with
    | Option.some cm =>
        70 + (if 3 ≤ cm.topics.length then 5 else 0)
           + (if 3 ≤ cm.interests.length then 5 else 0)
           + (if 5 ≤ cm.history.length then 5 else 0)
    | Option.none => 0
  let tw : ℕ :=
    match u.twitter with
    | Option.some t =>
        if u.dataQuality.twitter = Quality.real then
          10 + (if 10 ≤ t.tweets.length then 3 else 0)
             + (if 20 ≤ t.following.length then 2 else 0)
        else 0
    | Option.none => 0
  min (conv + tw) 100

/-- Closed form of one `addWeighted` pass starting from keys it does not
collide with: each category of the list paired with its position-decayed
score. -/
def scoredList (weight : ℚ) : List String → ℕ → Scoreboard
  | [], _ => []
  | c :: cs, i => (c, weight * (1.0 - (i : ℚ) * 0.1)) :: scoredList weight cs (i + 1)

/-! ## Theorems -/

/-- **C10** — `hasSufficientData` returns `true` iff `conversationMemory`
is present with `messageCount ≥ 3`; no other field of `UserData` affects
the result. -/
theorem hasSufficientData_iff_conversation_three (u : UserData) :
    (hasSufficientData u = true ↔
      ∃ cm, u.conversationMemory = Option.some cm ∧ 3 ≤ cm.messageCount) ∧
    (∀ u' : UserData, u'.conversationMemory = u.conversationMemory →
      hasSufficientData u' = hasSufficientData u) := by
  constructor
  · unfold hasSufficientData
    cases h : u.conversationMemory with
    | none => simp
    | some cm =>
        by_cases hm : cm.messageCount < 3 <;> simp [hm] <;> omega
  · intro u' h
    unfold hasSufficientData
    rw [h]

/-- Witness for C10: conversation with only 2 messages is insufficient no
matter how the Twitter/permission fields differ. -/
theorem hasSufficientData_iff_conversation_three_witness :
    hasSufficientData
      { sources := ["Conversation", "Twitter"]
        permissions := ⟨true, true⟩
        dataQuality := ⟨Quality.real, Quality.real⟩
        conversationMemory := Option.some ⟨[], [], [], [], 2⟩ } =
    hasSufficientData
      { sources := []
        permissions := ⟨false, false⟩
        dataQuality := ⟨Quality.none, Quality.none⟩
        conversationMemory := Option.some ⟨[], [], [], [], 2⟩ } :=
  (hasSufficientData_iff_conversation_three _).2 _ rfl

/-- **C7** — `getDataQualityScore` computes exactly the spec's additive
rubric (70 conversation base + three +5 richness bonuses; 10 Twitter base
+3/+2 bonuses when the source is available with quality `real`), and the
result is clamped to `[0, 100]`. -/
theorem getDataQualityScore_spec (u : UserData) :
    getDataQualityScore u = specDataQualityScore u ∧
    getDataQualityScore u ≤ 100 := by
  constructor
  · unfold getDataQualityScore specDataQualityScore
    cases u.conversationMemory with
    | none =>
        cases u.twitter with
        | none => rfl
        | some t => simp only [] ; split_ifs <;> rfl
    | some cm =>
        cases u.twitter with
        | none => simp only [] ; split_ifs <;> rfl
        | some t => simp only [] ; split_ifs <;> rfl
  · unfold getDataQualityScore
    exact Nat.min_le_right _ 100

/-- **C1** — `collect` at a conversation source reporting only 2 messages:
the insufficient-data `Error` thrown inside `collectConversationMemory` is
caught by that same function's `catch`, so `collect` records the
conversation as a successful source with quality `real` and an all-empty
memory (`messageCount = 0`) instead of surfacing the failure.  This
contradicts the function's own doc comment ("Throws error if
messageCount < 3 (no silent fallback)") and the spec. -/
theorem collect_swallows_insufficient_conversation :
    (collect
      { sessionHistory := Option.some ⟨["t"], ["i"], ["p"], ["h"], 2⟩
        twitterData := ⟨"", [], [], ⟨[], [], []⟩⟩
        walletAddress := Option.none }
      ⟨false, false⟩).dataQuality.conversation = Quality.real ∧
    "Conversation" ∈ (collect
      { sessionHistory := Option.some ⟨["t"], ["i"], ["p"], ["h"], 2⟩
        twitterData := ⟨"", [], [], ⟨[], [], []⟩⟩
        walletAddress := Option.none }
      ⟨false, false⟩).sources ∧
    (collect
      { sessionHistory := Option.some ⟨["t"], ["i"], ["p"], ["h"], 2⟩
        twitterData := ⟨"", [], [], ⟨[], [], []⟩⟩
        walletAddress := Option.none }
      ⟨false, false⟩).conversationMemory =
      Option.some ⟨[], [], [], [], 0⟩ := by
  refine ⟨rfl, ?_, rfl⟩
  decide

/-- **C4** — the feedback weight used by `mergeSignals` is
`min(0.3, eventCount * 0.02)`: it is `0` at `eventCount = 0`, exactly
`0.3` for every `eventCount ≥ 15`, and non-decreasing in `eventCount`. -/
theorem feedbackWeight_formula :
    (∀ n : ℕ, feedbackWeightOf n = min 0.3 ((n : ℚ) * 0.02)) ∧
    feedbackWeightOf 0 = 0 ∧
    (∀ n : ℕ, 15 ≤ n → feedbackWeightOf n = 0.3) ∧
    (∀ n m : ℕ, n ≤ m → feedbackWeightOf n ≤ feedbackWeightOf m) := by
  refine ⟨fun n => rfl, by norm_num [feedbackWeightOf], fun n hn => ?_,
    fun n m h => ?_⟩
  · unfold feedbackWeightOf
    have h15 : (15 : ℚ) ≤ (n : ℚ) := by exact_mod_cast hn
    have : (0.3 : ℚ) ≤ (n : ℚ) * 0.02 := by nlinarith
    exact min_eq_left this
  · unfold feedbackWeightOf
    have hq : (n : ℚ) ≤ (m : ℚ) := by exact_mod_cast h
    have : (n : ℚ) * 0.02 ≤ (m : ℚ) * 0.02 := by nlinarith
    exact min_le_min le_rfl this

/-- Witness for C4: the weight saturates at `eventCount = 15` and is
monotone between 3 and 7 events. -/
theorem feedbackWeight_formula_witness :
    feedbackWeightOf 15 = 0.3 ∧ feedbackWeightOf 3 ≤ feedbackWeightOf 7 :=
  ⟨feedbackWeight_formula.2.2.1 15 (by norm_num),
   feedbackWeight_formula.2.2.2 3 7 (by norm_num)⟩

/-- **C8** — `classify` (modelled from the spec, the implementing file not
being among the sources) is a total function on the dimension cube: the
`contribution > 65` override yields Cultivator, otherwise the quadrant on
`conviction ≥ 50` / `intuition ≥ 50` decides, ties at exactly 50 counting
as high; the spec scenario `(75, 20, 10)` yields Optimizer. -/
theorem classify_quadrants (c i t : ℚ)
    (hc0 : 0 ≤ c) (hc1 : c ≤ 100) (hi0 : 0 ≤ i) (hi1 : i ≤ 100)
    (ht0 : 0 ≤ t) (ht1 : t ≤ 100) :
    (65 < t → classify c i t = IdentityType.cultivator) ∧
    (t ≤ 65 →
      (50 ≤ c → 50 ≤ i → classify c i t = IdentityType.visionary) ∧
      (50 ≤ c → i < 50 → classify c i t = IdentityType.optimizer) ∧
      (c < 50 → 50 ≤ i → classify c i t = IdentityType.explorer) ∧
      (c < 50 → i < 50 → classify c i t = IdentityType.innovator)) ∧
    classify 75 20 10 = IdentityType.optimizer := by
  refine ⟨fun h => ?_, fun h => ⟨fun h1 h2 => ?_, fun h1 h2 => ?_,
    fun h1 h2 => ?_, fun h1 h2 => ?_⟩, by norm_num [classify]⟩ <;>
    unfold classify
  · rw [if_pos h]
  · rw [if_neg (by linarith), if_pos h1, if_pos h2]
  · rw [if_neg (by linarith), if_pos h1, if_neg (by linarith)]
  · rw [if_neg (by linarith), if_neg (by linarith), if_pos h2]
  · rw [if_neg (by linarith), if_neg (by linarith), if_neg (by linarith)]

/-- Witness for C8: the spec scenario `conviction=75, intuition=20,
contribution=10` classifies as Optimizer. -/
theorem classify_quadrants_witness : classify 75 20 10 = IdentityType.optimizer :=
  (classify_quadrants 75 20 10 (by norm_num) (by norm_num) (by norm_num)
    (by norm_num) (by norm_num) (by norm_num)).2.2

/-! ### Scoreboard lemmas -/

theorem mapGet_mapSet_self (m : Scoreboard) (cat : String) (v : ℚ) :
    mapGet (mapSet m cat v) cat = Option.some v := by
  induction m with
  | nil => simp [mapSet, mapGet]
  | cons p rest ih =>
      by_cases h : p.1 = cat
      · simp [mapSet, mapGet, h]
      · simp [mapSet, mapGet, h, ih]

theorem mapGet_mapSet_ne (m : Scoreboard) (cat cat' : String) (v : ℚ)
    (h : cat' ≠ cat) :
    mapGet (mapSet m cat v) cat' = mapGet m cat' := by
  have hcc : ¬cat = cat' := Ne.symm h
  induction m with
  | nil => simp [mapSet, mapGet, hcc]
  | cons p rest ih =>
      by_cases hp : p.1 = cat
      · have hpc : ¬p.1 = cat' := by rw [hp]; exact hcc
        simp [mapSet, mapGet, hp, hcc, hpc]
      · simp [mapSet, mapGet, hp, ih]

theorem mapGet_eq_none (m : Scoreboard) (cat : String)
    (h : cat ∉ m.map Prod.fst) : mapGet m cat = Option.none := by
  induction m with
  | nil => rfl
  | cons p rest ih =>
      simp only [List.map_cons, List.mem_cons, not_or] at h
      simp [mapGet, Ne.symm h.1, ih h.2]

theorem mapSet_append (m : Scoreboard) (cat : String) (v : ℚ)
    (h : cat ∉ m.map Prod.fst) : mapSet m cat v = m ++ [(cat, v)] := by
  induction m with
  | nil => rfl
  | cons p rest ih =>
      simp only [List.map_cons, List.mem_cons, not_or] at h
      simp [mapSet, Ne.symm h.1, ih h.2]

theorem mapSet_keys (m : Scoreboard) (cat : String) (v : ℚ) :
    (mapSet m cat v).map Prod.fst =
      if cat ∈ m.map Prod.fst then m.map Prod.fst
      else m.map Prod.fst ++ [cat] := by
  induction m with
  | nil => simp [mapSet]
  | cons p rest ih =>
      by_cases hp : p.1 = cat
      · simp [mapSet, hp]
      · have : ¬ cat = p.1 := fun he => hp he.symm
        simp only [mapSet, if_neg hp, List.map_cons, ih, List.mem_cons, this,
          false_or]
        split_ifs <;> simp

theorem mapSet_keys_nodup (m : Scoreboard) (cat : String) (v : ℚ)
    (h : (m.map Prod.fst).Nodup) :
    ((mapSet m cat v).map Prod.fst).Nodup := by
  rw [mapSet_keys]
  split_ifs with hm
  · exact h
  · simp [List.nodup_append, h, hm]

theorem mapSet_length_ge (m : Scoreboard) (cat : String) (v : ℚ) :
    m.length ≤ (mapSet m cat v).length := by
  induction m with
  | nil => simp [mapSet]
  | cons p rest ih =>
      by_cases hp : p.1 = cat <;> simp [mapSet, hp] <;> omega

theorem addWeighted_keys_nodup (w : ℚ) (cats : List String) (i : ℕ)
    (m : Scoreboard) (h : (m.map Prod.fst).Nodup) :
    ((addWeighted w cats i m).map Prod.fst).Nodup := by
  induction cats generalizing i m with
  | nil => exact h
  | cons c cs ih => exact ih _ _ (mapSet_keys_nodup _ _ _ h)

theorem addWeighted_length_ge (w : ℚ) (cats : List String) (i : ℕ)
    (m : Scoreboard) : m.length ≤ (addWeighted w cats i m).length := by
  induction cats generalizing i m with
  | nil => exact le_rfl
  | cons c cs ih =>
      exact le_trans (mapSet_length_ge m c _) (ih _ _)

theorem applyFeedback_keys_nodup (fw : ℚ) (ws : List (String × ℚ))
    (m : Scoreboard) (h : (m.map Prod.fst).Nodup) :
    ((applyFeedback fw ws m).map Prod.fst).Nodup := by
  induction ws generalizing m with
  | nil => exact h
  | cons cw rest ih =>
      simp only [applyFeedback]
      split_ifs <;> exact ih _ (by first | exact mapSet_keys_nodup _ _ _ h | exact h)

theorem applyFeedback_length_ge (fw : ℚ) (ws : List (String × ℚ))
    (m : Scoreboard) : m.length ≤ (applyFeedback fw ws m).length := by
  induction ws generalizing m with
  | nil => exact le_rfl
  | cons cw rest ih =>
      simp only [applyFeedback]
      split_ifs <;> exact le_trans (by first | exact mapSet_length_ge _ _ _ | exact le_rfl) (ih _)

/-! ### Stable-sort lemmas -/

theorem insertDescBy_perm {α : Type} (key : α → ℚ) (a : α) (l : List α) :
    List.Perm (insertDescBy key a l) (a :: l) := by
  induction l with
  | nil => exact List.Perm.refl _
  | cons b rest ih =>
      by_cases h : key a < key b
      · simp only [insertDescBy, if_pos h]
        exact (ih.cons b).trans (List.Perm.swap a b rest)
      · simp only [insertDescBy, if_neg h]
        exact List.Perm.refl _

theorem sortDescBy_perm {α : Type} (key : α → ℚ) (l : List α) :
    List.Perm (sortDescBy key l) l := by
  induction l with
  | nil => exact List.Perm.refl _
  | cons a rest ih =>
      exact (insertDescBy_perm key a _).trans (ih.cons a)

theorem sortDescBy_eq_self {α : Type} (key : α → ℚ) (l : List α)
    (h : l.Pairwise (fun p q => key q < key p)) : sortDescBy key l = l := by
  induction l with
  | nil => rfl
  | cons a rest ih =>
      have hrest := (List.pairwise_cons.mp h).2
      have ha := (List.pairwise_cons.mp h).1
      simp only [sortDescBy, ih hrest]
      cases rest with
      | nil => rfl
      | cons b r =>
          have : ¬ key a < key b := not_lt.mpr (le_of_lt (ha b (by simp)))
          simp [insertDescBy, this]

/-! ### Closed form of a fresh `addWeighted` pass -/

theorem scoredList_map_fst (w : ℚ) (L : List String) (i : ℕ) :
    (scoredList w L i).map Prod.fst = L := by
  induction L generalizing i with
  | nil => rfl
  | cons c cs ih => simp [scoredList, ih]

theorem scoredList_score_le (w : ℚ) (hw : 0 ≤ w) (L : List String) (i : ℕ) :
    ∀ p ∈ scoredList w L i, p.2 ≤ w * (1.0 - (i : ℚ) * 0.1) := by
  induction L generalizing i with
  | nil => simp [scoredList]
  | cons c cs ih =>
      intro p hp
      rcases (by simpa [scoredList] using hp :
          p = (c, w * (1.0 - (i : ℚ) * 0.1)) ∨ p ∈ scoredList w cs (i + 1)) with
        rfl | hp'
      · exact le_rfl
      · have h1 := ih (i + 1) p hp'
        have h2 : w * (1.0 - ((i + 1 : ℕ) : ℚ) * 0.1) ≤ w * (1.0 - (i : ℚ) * 0.1) := by
          push_cast
          nlinarith
        linarith

theorem scoredList_pairwise (w : ℚ) (hw : 0 < w) (L : List String) (i : ℕ) :
    (scoredList w L i).Pairwise (fun p q => q.2 < p.2) := by
  induction L generalizing i with
  | nil => simp [scoredList]
  | cons c cs ih =>
      simp only [scoredList, List.pairwise_cons]
      refine ⟨fun q hq => ?_, ih (i + 1)⟩
      have h1 := scoredList_score_le w (le_of_lt hw) cs (i + 1) q hq
      have h2 : w * (1.0 - ((i + 1 : ℕ) : ℚ) * 0.1) < w * (1.0 - (i : ℚ) * 0.1) := by
        push_cast
        nlinarith
      linarith

theorem addWeighted_fresh (w : ℚ) (L : List String) (i : ℕ) (m : Scoreboard)
    (hdisj : ∀ c ∈ L, c ∉ m.map Prod.fst) (hnd : L.Nodup) :
    addWeighted w L i m = m ++ scoredList w L i := by
  induction L generalizing i m with
  | nil => simp [addWeighted, scoredList]
  | cons c cs ih =>
      have hc : c ∉ m.map Prod.fst := hdisj c (by simp)
      have hcs : c ∉ cs := (List.nodup_cons.mp hnd).1
      simp only [addWeighted, scoredList]
      rw [mapGet_eq_none m c hc, mapSet_append m c _ hc]
      rw [ih (i + 1) (m ++ [(c, (Option.none : Option ℚ).getD 0 + w * (1.0 - (i : ℚ) * 0.1))])
        (fun c' hc' => by
          simp only [List.map_append, List.mem_append, List.map_cons,
            List.map_nil, List.mem_singleton, not_or]
          exact ⟨hdisj c' (List.mem_cons_of_mem c hc'),
            fun he => hcs (he ▸ hc')⟩)
        (List.nodup_cons.mp hnd).2]
      simp [List.append_assoc]

/-! ### The all-sources-null merge (C2) -/

theorem categoryScoreboard_all_null (rtest : String → String → Bool)
    (L : List String) (h : L.Nodup) :
    categoryScoreboard rtest L Option.none Option.none = scoredList 1 L 0 := by
  have hfw : feedbackWeightOf (eventCountOf Option.none) = 0 := by
    simp [feedbackWeightOf, eventCountOf]
    norm_num
  have hum : userMdWeightOf false 0 = 0 := by simp [userMdWeightOf]
  unfold categoryScoreboard baseScoreboard
  simp only [Option.bind_none, Option.isSome_none, hfw, hum]
  have h1 : (1.0 : ℚ) - 0 - 0 = 1 := by norm_num
  rw [h1, addWeighted_fresh 1 L 0 [] (by simp) h]
  simp [addWeighted]

theorem main_all_null_aux (rtest : String → String → Bool)
    (L : List String) (dims : DimTriple) (h : L.Nodup) :
    (mergeSignals rtest L dims Option.none Option.none).mainCategories =
      L.take 3 := by
  unfold mergeSignals
  simp only [categoryScoreboard_all_null rtest L h,
    sortDescBy_eq_self Prod.snd _ (scoredList_pairwise 1 one_pos L 0),
    scoredList_map_fst]
  cases L with
  | nil => simp
  | cons a l => simp [List.length_take]

/-- **C2** fails as stated: with both optional sources null, a four-entry
conversation category list is truncated — `mainCategories` is the top 3,
not the whole raw list.  (The regex oracle is irrelevant here: with a null
static profile no regex is ever consulted.) -/
theorem mergeSignals_all_null_truncates :
    (mergeSignals (fun _ _ => false) ["A", "B", "C", "D"] ⟨0, 0, 0⟩
      Option.none Option.none).mainCategories = ["A", "B", "C"] ∧
    ["A", "B", "C"] ≠ ["A", "B", "C", "D"] :=
  ⟨main_all_null_aux (fun _ _ => false) ["A", "B", "C", "D"] ⟨0, 0, 0⟩
    (by decide), by decide⟩

/-- **C2** (amended) — with the static profile and feedback both null,
`mainCategories` equals the first `min(3, n)` elements of the raw
conversation category list, in the raw order, for every duplicate-free
list (so lists of up to 3 distinct categories are returned verbatim;
longer ones are truncated to the top 3, and lists with repeated names are
collapsed by the scoreboard). -/
theorem mergeSignals_all_null_main (rtest : String → String → Bool)
    (L : List String) (dims : DimTriple) (h : L.Nodup) :
    (mergeSignals rtest L dims Option.none Option.none).mainCategories =
      L.take 3 :=
  main_all_null_aux rtest L dims h

/-- Witness for the amended C2, at the spec's own scenario: conversation
categories `["AI Tools", "Crypto"]`, no static profile, no feedback. -/
theorem mergeSignals_all_null_main_witness :
    (mergeSignals (fun _ _ => false) ["AI Tools", "Crypto"] ⟨0, 0, 0⟩
      Option.none Option.none).mainCategories = ["AI Tools", "Crypto"] :=
  mergeSignals_all_null_main (fun _ _ => false) ["AI Tools", "Crypto"]
    ⟨0, 0, 0⟩ (by decide)

/-! ### Category-set invariants (C3) -/

theorem dedupKeepFirst_nodup (l : List String) : (dedupKeepFirst l).Nodup := by
  induction l with
  | nil => simp [dedupKeepFirst]
  | cons c rest ih =>
      simp only [dedupKeepFirst, List.nodup_cons]
      exact ⟨by simp [List.mem_filter], List.Nodup.filter _ ih⟩

theorem mem_dedupKeepFirst (x : String) (l : List String) :
    x ∈ dedupKeepFirst l ↔ x ∈ l := by
  induction l with
  | nil => simp [dedupKeepFirst]
  | cons c rest ih =>
      simp only [dedupKeepFirst, List.mem_cons, List.mem_filter, ih]
      by_cases hx : x = c <;> simp [hx]

theorem take_drop_disjoint {l : List String} (h : l.Nodup) (n : ℕ) :
    ∀ x ∈ l.take n, x ∉ l.drop n := by
  have h2 := h
  rw [← List.take_append_drop n l] at h2
  have hd := (List.nodup_append.mp h2).2.2
  exact fun x hx hx' => hd hx hx'

theorem categoryScoreboard_keys_nodup (rtest : String → String → Bool)
    (convCats : List String) (userMd : Option UserMdSignals)
    (fb : Option FeedbackData) :
    ((categoryScoreboard rtest convCats userMd fb).map Prod.fst).Nodup := by
  unfold categoryScoreboard baseScoreboard
  have hbase : ∀ (w w2 : ℚ) (L2 : List String),
      ((addWeighted w2 L2 0 (addWeighted w convCats 0 [])).map Prod.fst).Nodup :=
    fun w w2 L2 =>
      addWeighted_keys_nodup _ _ _ _ (addWeighted_keys_nodup _ _ _ _ (by simp))
  cases hfb : fb.bind (fun f => f.categoryWeights) with
  | none => simpa using hbase _ _ _
  | some ws =>
      simp only [hfb]
      exact applyFeedback_keys_nodup _ _ _ (hbase _ _ _)

theorem mapSet_length_pos (m : Scoreboard) (cat : String) (v : ℚ) :
    0 < (mapSet m cat v).length := by
  cases m with
  | nil => simp [mapSet]
  | cons p rest => simp only [mapSet]; split_ifs <;> simp

theorem addWeighted_cons_length_pos (w : ℚ) (c : String) (cs : List String)
    (i : ℕ) (m : Scoreboard) : 0 < (addWeighted w (c :: cs) i m).length := by
  show 0 < (addWeighted w cs (i + 1)
    (mapSet m c ((mapGet m c).getD 0 + w * (1.0 - (i : ℚ) * 0.1)))).length
  exact lt_of_lt_of_le (mapSet_length_pos m c _) (addWeighted_length_ge _ _ _ _)

theorem categoryScoreboard_length_pos (rtest : String → String → Bool)
    (c : String) (cs : List String) (userMd : Option UserMdSignals)
    (fb : Option FeedbackData) :
    0 < (categoryScoreboard rtest (c :: cs) userMd fb).length := by
  have key : ∀ (w w2 : ℚ) (L2 : List String),
      0 < (addWeighted w2 L2 0 (addWeighted w (c :: cs) 0 [])).length := by
    intro w w2 L2
    exact lt_of_lt_of_le (addWeighted_cons_length_pos w c cs 0 [])
      (addWeighted_length_ge _ _ _ _)
  unfold categoryScoreboard baseScoreboard
  cases hfb : fb.bind (fun f => f.categoryWeights) with
  | none => simpa using key _ _ _
  | some ws =>
      simp only [hfb]
      exact lt_of_lt_of_le (key _ _ _) (applyFeedback_length_ge _ _ _)

/-- **C3** (amended) — for every input combination, `mainCategories` has
at most 3 entries without duplicates and `subCategories` at most 10
without duplicates; a name can occur in **both** lists only when it comes
from the static profile's declared `interests` (so full disjointness holds
exactly when the declared interests avoid the top-3 names). -/
theorem mergeSignals_category_invariants (rtest : String → String → Bool)
    (convCats : List String) (dims : DimTriple)
    (userMd : Option UserMdSignals) (fb : Option FeedbackData)
    (r : MergedSignals) (hr : r = mergeSignals rtest convCats dims userMd fb) :
    (r.mainCategories.length ≤ 3 ∧ r.mainCategories.Nodup) ∧
    (r.subCategories.length ≤ 10 ∧ r.subCategories.Nodup) ∧
    (∀ x ∈ r.subCategories, x ∈ r.mainCategories →
      x ∈ (userMd.bind (fun u => u.interests)).getD []) := by
  subst hr
  have hmain : (mergeSignals rtest convCats dims userMd fb).mainCategories =
      (if 0 < (((sortDescBy Prod.snd (categoryScoreboard rtest convCats userMd fb)).map
            Prod.fst).take 3).length
       then ((sortDescBy Prod.snd (categoryScoreboard rtest convCats userMd fb)).map
            Prod.fst).take 3
       else convCats) := rfl
  have hsub : (mergeSignals rtest convCats dims userMd fb).subCategories =
      (dedupKeepFirst (((sortDescBy Prod.snd
          (categoryScoreboard rtest convCats userMd fb)).map Prod.fst).drop 3 ++
        (userMd.bind (fun u => u.interests)).getD [])).take 10 := rfl
  have hknd : (((sortDescBy Prod.snd
      (categoryScoreboard rtest convCats userMd fb)).map Prod.fst)).Nodup := by
    have hp := List.Perm.map Prod.fst
      (sortDescBy_perm Prod.snd (categoryScoreboard rtest convCats userMd fb))
    exact hp.nodup_iff.mpr (categoryScoreboard_keys_nodup rtest convCats userMd fb)
  refine ⟨?_, ⟨?_, ?_⟩, ?_⟩
  · rw [hmain]
    split_ifs with hpos
    · constructor
      · calc (List.take 3 _).length = min 3 _ := List.length_take 3 _
          _ ≤ 3 := min_le_left _ _
      · exact List.Nodup.sublist (List.take_sublist 3 _) hknd
    · -- empty top-3 means the whole scoreboard is empty, so convCats = []
      cases hc : convCats with
      | nil => simp
      | cons c cs =>
          exfalso
          apply hpos
          have hlen : 0 < (categoryScoreboard rtest convCats userMd fb).length := by
            rw [hc]; exact categoryScoreboard_length_pos rtest c cs userMd fb
          have hlen2 : 0 < ((sortDescBy Prod.snd
              (categoryScoreboard rtest convCats userMd fb)).map Prod.fst).length := by
            rw [List.length_map,
              (sortDescBy_perm Prod.snd _).length_eq]
            exact hlen
          rw [List.length_take]
          omega
  · rw [hsub]
    calc (List.take 10 _).length = min 10 _ := List.length_take 10 _
      _ ≤ 10 := min_le_left _ _
  · rw [hsub]
    exact List.Nodup.sublist (List.take_sublist 10 _) (dedupKeepFirst_nodup _)
  · intro x hxs hxm
    rw [hsub] at hxs
    have hx1 : x ∈ dedupKeepFirst (((sortDescBy Prod.snd
        (categoryScoreboard rtest convCats userMd fb)).map Prod.fst).drop 3 ++
        (userMd.bind (fun u => u.interests)).getD []) :=
      (List.take_sublist 10 _).subset hxs
    rcases List.mem_append.mp ((mem_dedupKeepFirst _ _).mp hx1) with hdrop | hint
    · rw [hmain] at hxm
      split_ifs at hxm with hpos
      · exact absurd hdrop (take_drop_disjoint hknd 3 x hxm)
      · -- here mainCategories = convCats, which we show is empty
        cases hc : convCats with
        | nil => rw [hc] at hxm; simp at hxm
        | cons c cs =>
            exfalso
            apply hpos
            have hlen : 0 < (categoryScoreboard rtest convCats userMd fb).length := by
              rw [hc]; exact categoryScoreboard_length_pos rtest c cs userMd fb
            have hlen2 : 0 < ((sortDescBy Prod.snd
                (categoryScoreboard rtest convCats userMd fb)).map Prod.fst).length := by
              rw [List.length_map, (sortDescBy_perm Prod.snd _).length_eq]
              exact hlen
            rw [List.length_take]
            omega
    · exact hint

/-- Witness for the amended C3, at a static profile whose declared
interest repeats the single conversation category. -/
theorem mergeSignals_category_invariants_witness :
    ((mergeSignals (fun _ _ => false) ["AI Tools"] ⟨0, 0, 0⟩
      (Option.some { interests := Option.some ["AI Tools"] })
      Option.none).mainCategories.length ≤ 3) ∧
    ((mergeSignals (fun _ _ => false) ["AI Tools"] ⟨0, 0, 0⟩
      (Option.some { interests := Option.some ["AI Tools"] })
      Option.none).subCategories.length ≤ 10) :=
  ⟨(mergeSignals_category_invariants (fun _ _ => false) ["AI Tools"] ⟨0, 0, 0⟩
      (Option.some { interests := Option.some ["AI Tools"] }) Option.none _
      rfl).1.1,
   (mergeSignals_category_invariants (fun _ _ => false) ["AI Tools"] ⟨0, 0, 0⟩
      (Option.some { interests := Option.some ["AI Tools"] }) Option.none _
      rfl).2.1.1⟩

/-- **C3** fails as stated: with conversation category `"AI Tools"` and a
static profile declaring interest `"AI Tools"`, the name appears in both
`mainCategories` and `subCategories` (the sub-category pass re-adds every
declared interest without checking the top 3). -/
theorem mergeSignals_main_sub_overlap :
    "AI Tools" ∈ (mergeSignals (fun _ _ => false) ["AI Tools"] ⟨0, 0, 0⟩
      (Option.some { interests := Option.some ["AI Tools"] })
      Option.none).mainCategories ∧
    "AI Tools" ∈ (mergeSignals (fun _ _ => false) ["AI Tools"] ⟨0, 0, 0⟩
      (Option.some { interests := Option.some ["AI Tools"] })
      Option.none).subCategories := by
  constructor
  · left
  · left

/-! ### Dimension-nudge bounds (C6) -/

theorem feedbackWeightOf_nonneg (n : ℕ) : 0 ≤ feedbackWeightOf n :=
  le_min (by norm_num) (mul_nonneg (Nat.cast_nonneg n) (by norm_num))

theorem feedbackWeightOf_le (n : ℕ) : feedbackWeightOf n ≤ 0.3 :=
  min_le_left _ _

theorem userMdWeightOf_nonneg (b : Bool) (fw : ℚ) :
    0 ≤ userMdWeightOf b fw := by
  unfold userMdWeightOf
  split_ifs
  · exact le_trans (by norm_num) (le_max_left 0.2 _)
  · exact le_rfl

theorem userMdWeightOf_le (b : Bool) (fw : ℚ) (h : 0 ≤ fw) :
    userMdWeightOf b fw ≤ 0.3 := by
  unfold userMdWeightOf
  split_ifs
  · exact max_le (by norm_num) (by nlinarith)
  · norm_num

theorem clamp_ge (v : ℚ) : -15 ≤ clamp v (-15) 15 := le_max_left _ _

theorem clamp_le (v : ℚ) : clamp v (-15) 15 ≤ 15 :=
  max_le (by norm_num) (min_le_left _ _)

theorem jsRound_bounds (q : ℚ) (h1 : -15 ≤ q) (h2 : q ≤ 15) :
    -15 ≤ jsRound q ∧ jsRound q ≤ 15 := by
  unfold jsRound
  constructor
  · exact Int.le_floor.mpr (by push_cast; linarith)
  · have hlt : Int.floor (q + 1/2) < 16 := Int.floor_lt.mpr (by push_cast; linarith)
    omega

theorem jsRound_zero : jsRound 0 = 0 := by
  unfold jsRound
  rw [zero_add, Int.floor_eq_zero_iff]
  constructor <;> norm_num

theorem jsRound_mul_bounds (b f : ℚ) (hb1 : -15 ≤ b) (hb2 : b ≤ 15)
    (hf1 : 0 ≤ f) (hf2 : f ≤ 1) :
    -15 ≤ jsRound (b * f) ∧ jsRound (b * f) ≤ 15 := by
  refine jsRound_bounds _ ?_ ?_
  · nlinarith [mul_nonneg (by linarith : (0 : ℚ) ≤ b + 15) hf1]
  · nlinarith [mul_nonneg (by linarith : (0 : ℚ) ≤ 15 - b) hf1]

theorem calculateDimensionNudges_bounds (rtest : String → String → Bool)
    (u : UserMdSignals) :
    (-15 ≤ (calculateDimensionNudges rtest u).conviction ∧
      (calculateDimensionNudges rtest u).conviction ≤ 15) ∧
    (-15 ≤ (calculateDimensionNudges rtest u).intuition ∧
      (calculateDimensionNudges rtest u).intuition ≤ 15) ∧
    (-15 ≤ (calculateDimensionNudges rtest u).contribution ∧
      (calculateDimensionNudges rtest u).contribution ≤ 15) := by
  unfold calculateDimensionNudges
  exact ⟨⟨clamp_ge _, clamp_le _⟩, ⟨clamp_ge _, clamp_le _⟩,
    ⟨clamp_ge _, clamp_le _⟩⟩

/-- **C6** — the merged dimension nudges are always integers (they are
`Math.round` results, typed `ℤ` here) within `[-15, +15]`, for every
static-profile and feedback input; with a null static profile all three
are zero. -/
theorem mergeSignals_nudges_bounded (rtest : String → String → Bool)
    (convCats : List String) (dims : DimTriple)
    (userMd : Option UserMdSignals) (fb : Option FeedbackData)
    (n : DimensionNudges)
    (hn : n = (mergeSignals rtest convCats dims userMd fb).dimensionNudges) :
    (-15 ≤ n.conviction ∧ n.conviction ≤ 15) ∧
    (-15 ≤ n.intuition ∧ n.intuition ≤ 15) ∧
    (-15 ≤ n.contribution ∧ n.contribution ≤ 15) ∧
    (userMd = Option.none → n = ⟨0, 0, 0⟩) := by
  subst hn
  have hf1 : 0 ≤ userMdWeightOf userMd.isSome
      (feedbackWeightOf (eventCountOf fb)) / 0.3 :=
    div_nonneg (userMdWeightOf_nonneg _ _) (by norm_num)
  have hf2 : userMdWeightOf userMd.isSome
      (feedbackWeightOf (eventCountOf fb)) / 0.3 ≤ 1 := by
    rw [div_le_one (by norm_num)]
    exact userMdWeightOf_le _ _ (feedbackWeightOf_nonneg _)
  cases userMd with
  | none =>
      have hd : (mergeSignals rtest convCats dims Option.none fb).dimensionNudges
          = ⟨0, 0, 0⟩ := by
        unfold mergeSignals
        simp only [zero_mul, jsRound_zero]
      rw [hd]
      exact ⟨⟨by norm_num, by norm_num⟩, ⟨by norm_num, by norm_num⟩,
        ⟨by norm_num, by norm_num⟩, fun _ => rfl⟩
  | some u =>
      have hb := calculateDimensionNudges_bounds rtest u
      have hd : (mergeSignals rtest convCats dims (Option.some u) fb).dimensionNudges =
          ⟨jsRound ((calculateDimensionNudges rtest u).conviction *
              (userMdWeightOf (Option.some u).isSome
                (feedbackWeightOf (eventCountOf fb)) / 0.3)),
           jsRound ((calculateDimensionNudges rtest u).intuition *
              (userMdWeightOf (Option.some u).isSome
                (feedbackWeightOf (eventCountOf fb)) / 0.3)),
           jsRound ((calculateDimensionNudges rtest u).contribution *
              (userMdWeightOf (Option.some u).isSome
                (feedbackWeightOf (eventCountOf fb)) / 0.3))⟩ := rfl
      rw [hd]
      exact ⟨jsRound_mul_bounds _ _ hb.1.1 hb.1.2 hf1 hf2,
        jsRound_mul_bounds _ _ hb.2.1.1 hb.2.1.2 hf1 hf2,
        jsRound_mul_bounds _ _ hb.2.2.1 hb.2.2.2 hf1 hf2,
        fun h => Option.noConfusion h⟩

/-- Witness for C6: a null static profile yields the zero nudge triple. -/
theorem mergeSignals_nudges_bounded_witness :
    (mergeSignals (fun _ _ => false) [] ⟨0, 0, 0⟩ Option.none
      Option.none).dimensionNudges = ⟨0, 0, 0⟩ :=
  (mergeSignals_nudges_bounded (fun _ _ => false) [] ⟨0, 0, 0⟩ Option.none
    Option.none _ rfl).2.2.2 rfl

/-! ### The feedback multiplier pass (C5) -/

theorem applyFeedback_get_other (fw : ℚ) (ws : List (String × ℚ)) :
    ∀ (m : Scoreboard) (cat : String), cat ∉ ws.map Prod.fst →
      mapGet (applyFeedback fw ws m) cat = mapGet m cat := by
  induction ws with
  | nil => intro m cat _; rfl
  | cons cw rest ih =>
      intro m cat h
      simp only [List.map_cons, List.mem_cons, not_or] at h
      simp only [applyFeedback]
      split_ifs with h1 h2
      · rw [ih _ _ h.2, mapGet_mapSet_ne _ _ _ _ h.1]
      · rw [ih _ _ h.2, mapGet_mapSet_ne _ _ _ _ h.1]
      · exact ih _ _ h.2

theorem applyFeedback_scores (fw : ℚ) (ws : List (String × ℚ)) :
    ∀ m : Scoreboard, (ws.map Prod.fst).Nodup →
    ∀ cw ∈ ws,
      (0 < (mapGet m cw.1).getD 0 →
        mapGet (applyFeedback fw ws m) cw.1 =
          Option.some ((mapGet m cw.1).getD 0 * cw.2)) ∧
      ((mapGet m cw.1).getD 0 ≤ 0 → 1.2 < cw.2 →
        mapGet (applyFeedback fw ws m) cw.1 =
          Option.some (fw * (cw.2 - 1.0))) ∧
      ((mapGet m cw.1).getD 0 ≤ 0 → cw.2 ≤ 1.2 →
        mapGet (applyFeedback fw ws m) cw.1 = mapGet m cw.1) := by
  induction ws with
  | nil => intro m _ cw hcw; exact absurd hcw (List.not_mem_nil cw)
  | cons hw rest ih =>
      intro m hnd cw hcw
      have hnd1 : hw.1 ∉ rest.map Prod.fst := (List.nodup_cons.mp hnd).1
      have hndr := (List.nodup_cons.mp hnd).2
      rcases List.mem_cons.mp hcw with rfl | hcwr
      · simp only [applyFeedback]
        split_ifs with h1 h2
        · refine ⟨fun _ => ?_, fun hle _ => absurd h1 (not_lt.mpr hle),
            fun hle _ => absurd h1 (not_lt.mpr hle)⟩
          rw [applyFeedback_get_other fw rest _ _ hnd1, mapGet_mapSet_self]
        · refine ⟨fun hpos => absurd hpos h1, fun _ _ => ?_,
            fun _ hle => absurd h2 (not_lt.mpr hle)⟩
          rw [applyFeedback_get_other fw rest _ _ hnd1, mapGet_mapSet_self]
        · refine ⟨fun hpos => absurd hpos h1, fun _ hgt => absurd hgt h2,
            fun _ _ => ?_⟩
          exact applyFeedback_get_other fw rest _ _ hnd1
      · have hne : cw.1 ≠ hw.1 := by
          intro he
          exact hnd1 (he ▸ List.mem_map_of_mem Prod.fst hcwr)
        simp only [applyFeedback]
        split_ifs with h1 h2
        · have hmg : mapGet (mapSet m hw.1 ((mapGet m hw.1).getD 0 * hw.2)) cw.1 =
              mapGet m cw.1 := mapGet_mapSet_ne _ _ _ _ hne
          have hres := ih (mapSet m hw.1 ((mapGet m hw.1).getD 0 * hw.2)) hndr cw hcwr
          rw [hmg] at hres
          exact hres
        · have hmg : mapGet (mapSet m hw.1 (fw * (hw.2 - 1.0))) cw.1 =
              mapGet m cw.1 := mapGet_mapSet_ne _ _ _ _ hne
          have hres := ih (mapSet m hw.1 (fw * (hw.2 - 1.0))) hndr cw hcwr
          rw [hmg] at hres
          exact hres
        · exact ih m hndr cw hcwr

/-- **C5** (amended) — in `mergeSignals`, for each `[category, multiplier]`
entry of `feedback.categoryWeights` (keys unique as in a JS `Record`):
if the accumulated scoreboard holds a **strictly positive** score for the
category, the final score is that score times the multiplier; if the
accumulated score is zero or negative — the category being absent, or
present at position 10 or beyond where the position bonus is ≤ 0 — the
entry behaves like an introduction: the score becomes
`feedbackWeight × (multiplier − 1.0)` when the multiplier exceeds `1.2`
and is left untouched otherwise.  (The claim's "already present" must be
read as "present with positive score": the code tests `existing > 0`, not
membership.) -/
theorem categoryScoreboard_feedback_rule (rtest : String → String → Bool)
    (convCats : List String) (userMd : Option UserMdSignals)
    (fb : FeedbackData) (ws : List (String × ℚ))
    (hws : fb.categoryWeights = Option.some ws)
    (hnd : (ws.map Prod.fst).Nodup) (cw : String × ℚ) (hcw : cw ∈ ws) :
    (0 < (mapGet (baseScoreboard rtest convCats userMd (Option.some fb)) cw.1).getD 0 →
      mapGet (categoryScoreboard rtest convCats userMd (Option.some fb)) cw.1 =
        Option.some
          ((mapGet (baseScoreboard rtest convCats userMd (Option.some fb)) cw.1).getD 0
            * cw.2)) ∧
    ((mapGet (baseScoreboard rtest convCats userMd (Option.some fb)) cw.1).getD 0 ≤ 0 →
      1.2 < cw.2 →
      mapGet (categoryScoreboard rtest convCats userMd (Option.some fb)) cw.1 =
        Option.some (feedbackWeightOf (eventCountOf (Option.some fb)) * (cw.2 - 1.0))) ∧
    ((mapGet (baseScoreboard rtest convCats userMd (Option.some fb)) cw.1).getD 0 ≤ 0 →
      cw.2 ≤ 1.2 →
      mapGet (categoryScoreboard rtest convCats userMd (Option.some fb)) cw.1 =
        mapGet (baseScoreboard rtest convCats userMd (Option.some fb)) cw.1) := by
  have hc : categoryScoreboard rtest convCats userMd (Option.some fb) =
      applyFeedback (feedbackWeightOf (eventCountOf (Option.some fb))) ws
        (baseScoreboard rtest convCats userMd (Option.some fb)) := by
    unfold categoryScoreboard
    simp [hws]
  rw [hc]
  exact applyFeedback_scores _ ws _ hnd cw hcw

/-- Witness for the amended C5: with an empty conversation, a feedback
entry `("Crypto", 1.5)` (multiplier above 1.2, accumulated score 0)
introduces the category at `feedbackWeight × 0.5`. -/
theorem categoryScoreboard_feedback_rule_witness :
    mapGet (categoryScoreboard (fun _ _ => false) [] Option.none
      (Option.some { categoryWeights := Option.some [("Crypto", 1.5)]
                     excludeSkillIds := Option.none
                     eventCount := 0 })) "Crypto" =
    Option.some (feedbackWeightOf (eventCountOf
      (Option.some ({ categoryWeights := Option.some [("Crypto", 1.5)]
                      excludeSkillIds := Option.none
                      eventCount := 0 } : FeedbackData))) * (1.5 - 1.0)) :=
  (categoryScoreboard_feedback_rule (fun _ _ => false) [] Option.none
    { categoryWeights := Option.some [("Crypto", 1.5)]
      excludeSkillIds := Option.none
      eventCount := 0 }
    [("Crypto", 1.5)] rfl (by simp) ("Crypto", 1.5) (by left)).2.1
    (le_refl 0) (by norm_num)

theorem baseScoreboard_no_userMd (rtest : String → String → Bool)
    (L : List String) (fb : Option FeedbackData) (h : L.Nodup) :
    baseScoreboard rtest L Option.none fb =
      scoredList (1.0 - userMdWeightOf false (feedbackWeightOf (eventCountOf fb))
        - feedbackWeightOf (eventCountOf fb)) L 0 := by
  unfold baseScoreboard
  simp only [Option.isSome_none]
  rw [addWeighted_fresh _ L 0 [] (by simp) h]
  simp [addWeighted]

theorem mapGet_scoredList (w : ℚ) (L : List String) (hnd : L.Nodup) :
    ∀ (i j : ℕ) (hj : j < L.length),
      mapGet (scoredList w L i) (L.get ⟨j, hj⟩) =
        Option.some (w * (1.0 - ((i + j : ℕ) : ℚ) * 0.1)) := by
  induction L with
  | nil => intro i j hj; exact absurd hj (by simp)
  | cons c cs ih =>
      intro i j hj
      cases j with
      | zero => simp [scoredList, mapGet]
      | succ j' =>
          have hj' : j' < cs.length := by
            simp only [List.length_cons] at hj
            omega
          have hget : (c :: cs).get ⟨j' + 1, hj⟩ = cs.get ⟨j', hj'⟩ := rfl
          have hne : cs.get ⟨j', hj'⟩ ≠ c := by
            intro he
            exact (List.nodup_cons.mp hnd).1 (he ▸ cs.get_mem j' hj')
          have harith : i + 1 + j' = i + (j' + 1) := by omega
          have hrec := ih (List.nodup_cons.mp hnd).2 (i + 1) j' hj'
          rw [harith] at hrec
          have hcond : ¬ (c = cs.get ⟨j', hj'⟩) := fun he => hne (Eq.symm he)
          rw [hget]
          simp only [scoredList, mapGet]
          rw [if_neg hcond, hrec]

/-- **C5** fails as stated: the 11th conversation category (index 10) is
*present* in the accumulated scoreboard with score `0.8 * (1 − 10·0.1) = 0`;
a feedback multiplier of `2.0` on it should, per the claim, leave
`0 × 2.0 = 0`, but the code's `existing > 0` test routes it to the
introduction branch and overwrites the score with
`feedbackWeight × (2.0 − 1.0) = 0.2`. -/
theorem categoryScoreboard_feedback_overwrites_zero_score :
    mapGet (baseScoreboard (fun _ _ => false)
      ["a", "b", "c", "d", "e", "f", "g", "h", "i", "j", "k"] Option.none
      (Option.some { categoryWeights := Option.some [("k", 2.0)]
                     excludeSkillIds := Option.none
                     eventCount := 10 })) "k" = Option.some 0 ∧
    mapGet (categoryScoreboard (fun _ _ => false)
      ["a", "b", "c", "d", "e", "f", "g", "h", "i", "j", "k"] Option.none
      (Option.some { categoryWeights := Option.some [("k", 2.0)]
                     excludeSkillIds := Option.none
                     eventCount := 10 })) "k" = Option.some (1/5) ∧
    ¬ ((1/5 : ℚ) = 0 * 2.0) := by
  have hnd : (["a", "b", "c", "d", "e", "f", "g", "h", "i", "j", "k"] :
      List String).Nodup := by decide
  have hfw : feedbackWeightOf (eventCountOf (Option.some
      ({ categoryWeights := Option.some [("k", 2.0)]
         excludeSkillIds := Option.none
         eventCount := 10 } : FeedbackData))) = 0.2 := by
    show feedbackWeightOf 10 = 0.2
    unfold feedbackWeightOf
    rw [min_eq_right (by norm_num)]
    norm_num
  have hbase := baseScoreboard_no_userMd (fun _ _ => false)
    ["a", "b", "c", "d", "e", "f", "g", "h", "i", "j", "k"]
    (Option.some { categoryWeights := Option.some [("k", 2.0)]
                   excludeSkillIds := Option.none
                   eventCount := 10 }) hnd
  have hkey := mapGet_scoredList
    (1.0 - userMdWeightOf false (feedbackWeightOf (eventCountOf (Option.some
        ({ categoryWeights := Option.some [("k", 2.0)]
           excludeSkillIds := Option.none
           eventCount := 10 } : FeedbackData))))
      - feedbackWeightOf (eventCountOf (Option.some
        ({ categoryWeights := Option.some [("k", 2.0)]
           excludeSkillIds := Option.none
           eventCount := 10 } : FeedbackData))))
    ["a", "b", "c", "d", "e", "f", "g", "h", "i", "j", "k"] hnd 0 10
    (by norm_num)
  have hget0 : mapGet (baseScoreboard (fun _ _ => false)
      ["a", "b", "c", "d", "e", "f", "g", "h", "i", "j", "k"] Option.none
      (Option.some { categoryWeights := Option.some [("k", 2.0)]
                     excludeSkillIds := Option.none
                     eventCount := 10 })) "k" = Option.some 0 := by
    have hkey2 : mapGet (scoredList
        (1.0 - userMdWeightOf false (feedbackWeightOf (eventCountOf (Option.some
            ({ categoryWeights := Option.some [("k", 2.0)]
               excludeSkillIds := Option.none
               eventCount := 10 } : FeedbackData))))
          - feedbackWeightOf (eventCountOf (Option.some
            ({ categoryWeights := Option.some [("k", 2.0)]
               excludeSkillIds := Option.none
               eventCount := 10 } : FeedbackData))))
        ["a", "b", "c", "d", "e", "f", "g", "h", "i", "j", "k"] 0) "k" =
        Option.some
          ((1.0 - userMdWeightOf false (feedbackWeightOf (eventCountOf (Option.some
              ({ categoryWeights := Option.some [("k", 2.0)]
                 excludeSkillIds := Option.none
                 eventCount := 10 } : FeedbackData))))
            - feedbackWeightOf (eventCountOf (Option.some
              ({ categoryWeights := Option.some [("k", 2.0)]
                 excludeSkillIds := Option.none
                 eventCount := 10 } : FeedbackData))))
           * (1.0 - ((10 : ℕ) : ℚ) * 0.1)) := hkey
    rw [hbase, hkey2, hfw]
    norm_num [userMdWeightOf]
  refine ⟨hget0, ?_, by norm_num⟩
  have hc : categoryScoreboard (fun _ _ => false)
      ["a", "b", "c", "d", "e", "f", "g", "h", "i", "j", "k"] Option.none
      (Option.some { categoryWeights := Option.some [("k", 2.0)]
                     excludeSkillIds := Option.none
                     eventCount := 10 }) =
      applyFeedback (feedbackWeightOf (eventCountOf (Option.some
          ({ categoryWeights := Option.some [("k", 2.0)]
             excludeSkillIds := Option.none
             eventCount := 10 } : FeedbackData)))) [("k", 2.0)]
        (baseScoreboard (fun _ _ => false)
          ["a", "b", "c", "d", "e", "f", "g", "h", "i", "j", "k"] Option.none
          (Option.some { categoryWeights := Option.some [("k", 2.0)]
                         excludeSkillIds := Option.none
                         eventCount := 10 })) := rfl
  rw [hc]
  rw [show feedbackWeightOf (eventCountOf (Option.some
      ({ categoryWeights := Option.some [("k", 2.0)]
         excludeSkillIds := Option.none
         eventCount := 10 } : FeedbackData))) = 0.2 from hfw]
  generalize hB : baseScoreboard (fun _ _ => false)
      ["a", "b", "c", "d", "e", "f", "g", "h", "i", "j", "k"] Option.none
      (Option.some { categoryWeights := Option.some [("k", 2.0)]
                     excludeSkillIds := Option.none
                     eventCount := 10 }) = B at hget0 ⊢
  simp only [applyFeedback]
  rw [hget0]
  norm_num
  rw [mapGet_mapSet_self]

/-! ### Catalog search merge (C9) -/

theorem dedupBySlug_find (l : List ClawHubSkill) :
    ∀ (seen : List String), ∀ s ∈ dedupBySlug l seen,
      s.slug ∉ seen ∧ l.find? (fun t => t.slug == s.slug) = Option.some s := by
  induction l with
  | nil => intro seen s hs; exact absurd hs (List.not_mem_nil s)
  | cons h rest ih =>
      intro seen s hs
      by_cases hh : h.slug ∈ seen
      · rw [show dedupBySlug (h :: rest) seen = dedupBySlug rest seen from by
          simp [dedupBySlug, hh]] at hs
        obtain ⟨h1, h2⟩ := ih seen s hs
        have hne : (h.slug == s.slug) = false := by
          simp only [beq_eq_false_iff_ne, ne_eq]
          intro he
          exact h1 (he ▸ hh)
        exact ⟨h1, by simp only [List.find?, hne]; exact h2⟩
      · rw [show dedupBySlug (h :: rest) seen =
            h :: dedupBySlug rest (h.slug :: seen) from by
          simp [dedupBySlug, hh]] at hs
        rcases List.mem_cons.mp hs with rfl | hs'
        · exact ⟨hh, by rw [List.find?_cons_of_pos _ (by simp)]⟩
        · obtain ⟨h1, h2⟩ := ih (h.slug :: seen) s hs'
          have hsn : s.slug ∉ seen := fun c => h1 (List.mem_cons_of_mem _ c)
          have hne : (h.slug == s.slug) = false := by
            simp only [beq_eq_false_iff_ne, ne_eq]
            intro he
            exact h1 (by rw [← he]; exact List.mem_cons_self _ _)
          exact ⟨hsn, by simp only [List.find?, hne]; exact h2⟩

theorem dedupBySlug_slugs_nodup (l : List ClawHubSkill) :
    ∀ seen, ((dedupBySlug l seen).map (fun s => s.slug)).Nodup := by
  induction l with
  | nil => intro seen; simp [dedupBySlug]
  | cons h rest ih =>
      intro seen
      by_cases hh : h.slug ∈ seen
      · simpa [dedupBySlug, hh] using ih seen
      · simp only [dedupBySlug, if_neg hh, List.map_cons, List.nodup_cons]
        constructor
        · intro hmem
          rcases List.mem_map.mp hmem with ⟨s, hs, heq⟩
          exact (dedupBySlug_find rest (h.slug :: seen) s hs).1
            (by rw [heq]; exact List.mem_cons_self _ _)
        · exact ih (h.slug :: seen)

/-- **C9** (amended) — the merged category-search result contains each
slug at most once and, for each entry, keeps the **first-seen** hit for
that slug in its entirety — attributes *and* `similarityScore`.  The
maximum score across duplicate hits is *not* recorded: later duplicates
are dropped wholesale. -/
theorem mergeSearchResults_spec (arrays : List (List ClawHubSkill))
    (s : ClawHubSkill) (hs : s ∈ mergeSearchResults arrays) :
    ((mergeSearchResults arrays).map (fun t => t.slug)).Nodup ∧
    arrays.flatten.find? (fun t => t.slug == s.slug) = Option.some s := by
  constructor
  · have hp := List.Perm.map (fun t : ClawHubSkill => t.slug)
      (sortDescBy_perm (fun t : ClawHubSkill => t.similarityScore)
        (dedupBySlug arrays.flatten []))
    exact hp.nodup_iff.mpr (dedupBySlug_slugs_nodup arrays.flatten [])
  · have hmem : s ∈ dedupBySlug arrays.flatten [] :=
      ((sortDescBy_perm (fun t : ClawHubSkill => t.similarityScore)
        (dedupBySlug arrays.flatten [])).mem_iff).mp hs
    exact (dedupBySlug_find arrays.flatten [] s hmem).2

/-- Witness for the amended C9: with two per-category result arrays both
reporting slug `"x"`, the merged entry is the first-seen record (score
`0.1` included), which is indeed the first match in the flattened input. -/
theorem mergeSearchResults_spec_witness :
    ([[{ slug := "x", version := "v1", name := "first", description := "d1",
         similarityScore := 0.1, url := "u1" }],
      [{ slug := "x", version := "v1", name := "second", description := "d2",
         similarityScore := 0.9, url := "u2" }]] :
      List (List ClawHubSkill)).flatten.find? (fun t => t.slug == "x") =
    Option.some { slug := "x", version := "v1", name := "first",
                  description := "d1", similarityScore := 0.1, url := "u1" } :=
  (mergeSearchResults_spec
    [[{ slug := "x", version := "v1", name := "first", description := "d1",
        similarityScore := 0.1, url := "u1" }],
     [{ slug := "x", version := "v1", name := "second", description := "d2",
        similarityScore := 0.9, url := "u2" }]]
    { slug := "x", version := "v1", name := "first", description := "d1",
      similarityScore := 0.1, url := "u1" }
    (by left)).2

/-- **C9** fails as stated: duplicate hits of slug `"x"` arrive with
scores `0.1` (first) and `0.9` (second); the merged result keeps the
first-seen entry with score `0.1`, not the maximum `0.9`. -/
theorem mergeSearchResults_not_max_score :
    (mergeSearchResults
      [[{ slug := "x", version := "v1", name := "first", description := "d1",
          similarityScore := 0.1, url := "u1" }],
       [{ slug := "x", version := "v1", name := "second", description := "d2",
          similarityScore := 0.9, url := "u2" }]]).map
      (fun s => (s.name, s.similarityScore)) = [("first", 0.1)] ∧
    ¬ ((0.1 : ℚ) = max 0.1 0.9) := by
  refine ⟨rfl, ?_⟩
  rw [max_eq_right (by norm_num : (0.1 : ℚ) ≤ 0.9)]
  norm_num

end Bloom
